import Mathlib

/-!
Shallow embedding of `packagery/__init__.py` (Parquery/pypackagery).

Python values are modelled as follows: `str` as `String` (with `str.endswith`
and friends expressed on the underlying character list), `pathlib.Path` as the
`String` of the path, `set` as a duplicate-free `List` grown by a guarded
append, `collections.OrderedDict` (and plain `dict`, which preserves insertion
order) as an association `List` where assignment to an existing key updates the
value in place and assignment to a fresh key appends.  Fallible code returns
`Except`.  The external collaborators (the `requirements` parsing library, the
`csv` reader, `modulefinder`, the filesystem) are modelled as explicit inputs,
as documented on each definition.
-/

namespace Packagery

/-- Python `str.endswith(pat)`, expressed on the character list of the string. -/
def pyEndsWith (s pat : String) : Bool :=
  decide (pat.data <:+ s.data)

/-- Python `pathlib.PurePosixPath.is_absolute()`: the path starts with `/`. -/
def pathIsAbsolute (p : String) : Bool :=
  decide (['/'] <+: p.data)

/-- Python `set.add` on the duplicate-free-list model of a set. -/
def setAdd (l : List String) (x : String) : List String :=
  if x ∈ l then l else l ++ [x]

/-- Python `repr` of a string, for inputs containing no quotes or escapes. -/
def pyStrRepr (s : String) : String :=
  "\x27" ++ s ++ "\x27"

/-- Python `repr` of a list of strings, e.g. `[\x7ba\x27, \x27b\x27]`-shaped output. -/
def pyListRepr (l : List String) : String :=
  "[" ++ String.intercalate ", " (l.map pyStrRepr) ++ "]"

/-- Python dict assignment `m[k] = v` on the insertion-ordered association-list
model: an existing key keeps its position and gets the new value, a fresh key
is appended at the end. -/
def odAssign {β : Type} (m : List (String × β)) (k : String) (v : β) : List (String × β) :=
  if k ∈ m.map Prod.fst then
    m.map (fun p => if p.1 = k then (k, v) else p)
  else
    m ++ [(k, v)]

/-- Python dict lookup `m[k]` (as an `Option`) on the association-list model. -/
def odLookup {β : Type} (m : List (String × β)) (k : String) : Option β :=
  match m with
  | [] => none
  | p :: rest => if p.1 = k then some p.2 else odLookup rest k

/-- Embeds the `Requirement` class: a name and the originating line of
`requirements.txt`. -/
structure Requirement where
  name : String
  line : String
deriving DecidableEq

/-- Embeds `Requirement.__init__`: a line that does not end with a newline gets
exactly one newline appended; a line already ending with a newline is stored
verbatim. -/
def Requirement.make (name line : String) : Requirement :=
  { name := name
    line := if pyEndsWith line "\n" then line else line ++ "\n" }

/-- One record produced by the external `requirements` parsing library for one
declaration line of `requirements.txt`, in source-text order: the parsed
package name (`None` when the declaration has no name) and the raw line. -/
structure ParsedRequirement where
  name : Option String
  line : String
deriving DecidableEq

/-- The `for req in ...parse(text)` loop of `parse_requirements`: each named
record is stored with `result[requirement.name] = requirement`; a nameless
record raises `ValueError`. -/
def parseRequirementsLoop (filename : String) :
    List (String × Requirement) → List ParsedRequirement →
    Except String (List (String × Requirement))
  | acc, [] => .ok acc
  | acc, r :: rest =>
    match r.name with
    | none =>
        .error ("The name is missing in the requirement from the file " ++ filename ++ ": "
          ++ r.line ++ " (did you specify the egg fragment?)")
    | some n => parseRequirementsLoop filename (odAssign acc n (Requirement.make n r.line)) rest

/-- Embeds `parse_requirements`.  The external `requirements` library is
modelled by its output: the list of parsed records in source-text order. -/
def parse_requirements (records : List ParsedRequirement)
    (filename : String := "<unknown>") : Except String (List (String × Requirement)) :=
  parseRequirementsLoop filename [] records

/-- Split a character list at every occurrence of the separator `c` (the
semantics of Python `str.split` with a one-character separator): `n + 1`
parts for `n` separators, so a trailing separator yields a final empty part. -/
def splitOnChar (c : Char) : List Char → List (List Char)
  | [] => [[]]
  | x :: rest =>
    if x = c then [] :: splitOnChar c rest
    else
      match splitOnChar c rest with
      | [] => [[x]]
      | h :: t => (x :: h) :: t

/-- Split a string at every occurrence of the character `c`. -/
def splitStr (c : Char) (s : String) : List String :=
  (splitOnChar c s.data).map (fun l => String.mk l)

/-- The distinct elements of a name stream in first-occurrence order, given
the names `ks` already present: a name already present is skipped, a fresh
name is emitted once and then counts as present. -/
def firstKeys (ks : List String) : List String → List String
  | [] => []
  | n :: ns => if n ∈ ks then firstKeys ks ns else n :: firstKeys (ks ++ [n]) ns

/-- The `Requirement` built from the last record of the stream that declares
the package name `k` (what Python dict assignment leaves as the value). -/
def lastParsed (records : List ParsedRequirement) (k : String) : Option Requirement :=
  ((records.filter (fun r => r.name == some k)).getLast?).map
    (fun r => Requirement.make k r.line)

/-- The rows produced by `csv.reader(io.StringIO(text), dialect="excel-tab")`,
modelled for texts without quote characters: one record per line, fields split
at tabs, a blank line giving an empty record, a final newline not producing an
extra record. -/
def csvReadTab (text : String) : List (List String) :=
  let parts :=
    if text = "" then []
    else
      let ps := splitStr '\n' text
      if ps.getLast? = some "" then ps.dropLast else ps
  parts.map (fun ln => if ln = "" then [] else splitStr '\t' ln)

/-- The `for i, row in enumerate(csv.reader(...))` loop of
`parse_module_to_requirement`.  The error message mirrors the source verbatim:
the format call passes `i + 1` into the first slot (after "got") and
`len(row)` into the second slot (after "on line"). -/
def parseModuleLoop (filename : String) :
    List (String × String) → Nat → List (List String) →
    Except String (List (String × String))
  | acc, _, [] => .ok acc
  | acc, i, row :: rest =>
    match row with
    | [module_name, requirement_name] =>
        parseModuleLoop filename (odAssign acc module_name requirement_name) (i + 1) rest
    | _ =>
        .error ("Expected two columns, but got " ++ toString (i + 1) ++ " on line "
          ++ toString row.length ++ " in " ++ filename ++ ": " ++ pyListRepr row)

/-- Embeds `parse_module_to_requirement`. -/
def parse_module_to_requirement (text : String)
    (filename : String := "<unknown>") : Except String (List (String × String)) :=
  parseModuleLoop filename [] 0 (csvReadTab text)

/-- The loop of `missing_requirements`: the source creates the set `seen` but
never inserts into it, so the `seen` argument is threaded unchanged, exactly as
in the source. -/
def missingRequirementsLoop (requirements : List (String × Requirement)) :
    List String → List String → List String → List String
  | result, _, [] => result
  | result, seen, requirement_name :: rest =>
    if odLookup requirements requirement_name = none ∧ requirement_name ∉ seen then
      missingRequirementsLoop requirements (result ++ [requirement_name]) seen rest
    else
      missingRequirementsLoop requirements result seen rest

/-- Embeds `missing_requirements`: iterates over the values of
`module_to_requirement` in insertion order. -/
def missing_requirements (module_to_requirement : List (String × String))
    (requirements : List (String × Requirement)) : List String :=
  missingRequirementsLoop requirements [] [] (module_to_requirement.map Prod.snd)

/-- The filesystem as seen by `resolve_initial_paths`: `Path.is_file`,
`Path.is_dir`, and `sorted(pth.glob("**/*.py"))` for a directory. -/
structure FileSystem where
  isFile : String → Bool
  isDir : String → Bool
  globPy : String → List String

/-- The inner loop of `resolve_initial_paths` over the sorted glob of one
directory: a globbed file not yet seen is appended to the result and to the
seen set. -/
def resolveDirLoop : List String → List String → List String → List String × List String
  | seen, result, [] => (seen, result)
  | seen, result, subpth :: rest =>
    if subpth ∈ seen then resolveDirLoop seen result rest
    else resolveDirLoop (setAdd seen subpth) (result ++ [subpth]) rest

/-- The main loop of `resolve_initial_paths`: a file is appended to the result
unconditionally (and recorded as seen), a directory contributes its globbed
files through `resolveDirLoop`, anything else raises `NotImplementedError`. -/
def resolveLoop (fs : FileSystem) :
    List String → List String → List String → Except String (List String)
  | _, result, [] => .ok result
  | seen, result, pth :: rest =>
    if fs.isFile pth then
      resolveLoop fs (setAdd seen pth) (result ++ [pth]) rest
    else if fs.isDir pth then
      let sr := resolveDirLoop seen result (fs.globPy pth)
      resolveLoop fs sr.1 sr.2 rest
    else
      .error ("Unhandled path, not a directory nor a file: " ++ pth)

/-- Embeds `resolve_initial_paths` (the function body; the icontract
decorators are runtime checks around it). -/
def resolve_initial_paths (fs : FileSystem) (initial_paths : List String) :
    Except String (List String) :=
  if initial_paths = [] then .ok []
  else resolveLoop fs [] [] initial_paths

/-- Python `l[i]`, raising `IndexError` when out of range. -/
def pyIndex {α : Type} (l : List α) (i : Nat) : Except String α :=
  match l.get? i with
  | some x => .ok x
  | none => .error "IndexError: list index out of range"

/-- Python `max` over a list of `Nat` lengths (the generator in
`_format_table` ranges over the non-empty list of rows, so the default 0 is
never the result there). -/
def pyMax (l : List Nat) : Nat :=
  l.foldl Nat.max 0

/-- Python `s.ljust(width)`. -/
def pyLjust (s : String) (width : Nat) : String :=
  s ++ String.mk (List.replicate (width - s.length) ' ')

/-- Width of column `i` in `_format_table`: `max(len(row[i]) for row in table)`. -/
def colWidth (table : List (List String)) (i : Nat) : Except String Nat := do
  let cells ← table.mapM (fun row => pyIndex row i)
  return pyMax (cells.map String.length)

/-- One formatted row of `_format_table`: ljust each cell to its column width,
join with " | " (Python `zip` truncates, so `List.zip` matches). -/
def formatRow (row : List String) (col_widths : List Nat) : String :=
  String.intercalate " | " ((row.zip col_widths).map (fun q => pyLjust q.1 q.2))

/-- The `for i, row in enumerate(table)` loop of `_format_table`: after the
first row the dashed border line is inserted. -/
def tableLines (col_widths : List Nat) (border : String) : Nat → List (List String) → List String
  | _, [] => []
  | i, row :: rest =>
    let line := formatRow row col_widths
    if i = 0 then line :: border :: tableLines col_widths border (i + 1) rest
    else line :: tableLines col_widths border (i + 1) rest

/-- Embeds `_format_table`.  The body starts with `cols = len(table[0])`, so an
empty table raises `IndexError` before anything else happens. -/
def _format_table (table : List (List String)) : Except String String := do
  let row0 ← pyIndex table 0
  let cols := row0.length
  let col_widths ← (List.range cols).mapM (colWidth table)
  let border := String.intercalate "-+-"
    (col_widths.map (fun w => String.mk (List.replicate w '-')))
  return String.intercalate "\n" (tableLines col_widths border 0 table)

/-- Embeds the `UnresolvedModule` class: a module name together with the
path (relative to the codebase root) of the file whose import triggered it. -/
structure UnresolvedModule where
  name : String
  imported_from : String
deriving DecidableEq

/-- Embeds the `Package` class: the accumulated requirements (an
insertion-ordered mapping), the set of visited relative paths, and the ordered
list of unresolved modules. -/
structure Package where
  requirements : List (String × Requirement)
  rel_paths : List String
  unresolved_modules : List UnresolvedModule
deriving DecidableEq

/-- One entry of `modulefinder.ModuleFinder.modules` after loading a file:
the module name and its `__file__` (already made relative to `root_dir`;
`modulefinder` restricted to `path=[root_dir]` only finds files beneath
`root_dir`, so `relative_to(root_dir)` always succeeds), or `none` when
`__file__` is unset (builtins). -/
structure ModuleEntry where
  name : String
  file : Option String
deriving DecidableEq

/-- What `modulefinder` reports for one loaded file: `badmodules` (imports it
could not locate under `root_dir`) and `modules` (located modules, always
including the loaded file itself), each in the dict's insertion order. -/
structure Resolution where
  badmodules : List String
  modules : List ModuleEntry
deriving DecidableEq

/-- The inputs of `collect_dependency_graph`: the external `modulefinder`
collaborator (as a function from the relative path of the loaded file to its
report), the parsed `module_to_requirement.tsv`, the parsed
`requirements.txt`, and the standard-library name set `_STDLIB_SET`. -/
structure CollectCtx where
  resolver : String → Resolution
  module_to_requirement : List (String × String)
  requirements : List (String × Requirement)
  stdlib : List String

/-- The mutable state of the traversal loop of `collect_dependency_graph`:
the `Package` fields under construction, the `unresolved_module_set` guard,
and the explicit work stack (head = top, matching `list.append`/`list.pop`). -/
structure LoopState where
  requirements : List (String × Requirement)
  rel_paths : List String
  unresolved_modules : List UnresolvedModule
  unresolved_module_set : List String
  stack : List String
deriving DecidableEq

/-- The exceptions `collect_dependency_graph` can raise: `KeyError` from
`requirements[req_name]`, the `assert not rel_pth.is_absolute()` on a popped
path, the `AssertionError` for a file-less non-stdlib module, and the
`assert len_rel_paths_before + 1 == len(package.rel_paths)` at the end of an
iteration. -/
inductive CollectError where
  | keyError (req_name : String)
  | absolutePath (rel_pth : String)
  | filelessModule (module_name : String)
  | assertOneStep (rel_pth : String)
deriving DecidableEq

/-- The body of `for module_name in mfder.badmodules` in
`collect_dependency_graph`, for one bad module name. -/
def processBadmodule (ctx : CollectCtx) (rel_pth : String) (st : LoopState)
    (module_name : String) : Except CollectError LoopState :=
  match odLookup ctx.module_to_requirement module_name with
  | some req_name =>
      if odLookup st.requirements req_name = none then
        match odLookup ctx.requirements req_name with
        | some req => .ok { st with requirements := odAssign st.requirements req_name req }
        | none => .error (.keyError req_name)
      else .ok st
  | none =>
      if module_name ∈ ctx.stdlib then .ok st
      else if module_name ∈ st.unresolved_module_set then .ok st
      else .ok { st with
          unresolved_module_set := setAdd st.unresolved_module_set module_name
          unresolved_modules :=
            st.unresolved_modules ++ [{ name := module_name, imported_from := rel_pth }] }

/-- The `for module_name in mfder.badmodules` loop. -/
def processBadmodules (ctx : CollectCtx) (rel_pth : String) :
    LoopState → List String → Except CollectError LoopState
  | st, [] => .ok st
  | st, module_name :: rest =>
    match processBadmodule ctx rel_pth st module_name with
    | .error e => .error e
    | .ok st1 => processBadmodules ctx rel_pth st1 rest

/-- The body of `for module_name, module in mfder.modules.items()` in
`collect_dependency_graph`, for one module entry: a file-less module is only
tolerated for the stdlib, a file-backed module pushes its relative path onto
the stack and adds the currently processed path to `rel_paths`. -/
def processModuleEntry (ctx : CollectCtx) (rel_pth : String) (st : LoopState)
    (m : ModuleEntry) : Except CollectError LoopState :=
  match m.file with
  | none =>
      if m.name ∈ ctx.stdlib then .ok st
      else .error (.filelessModule m.name)
  | some module_rel_pth =>
      .ok { st with
        stack := module_rel_pth :: st.stack
        rel_paths := setAdd st.rel_paths rel_pth }

/-- The `for module_name, module in mfder.modules.items()` loop. -/
def processModuleEntries (ctx : CollectCtx) (rel_pth : String) :
    LoopState → List ModuleEntry → Except CollectError LoopState
  | st, [] => .ok st
  | st, m :: rest =>
    match processModuleEntry ctx rel_pth st m with
    | .error e => .error e
    | .ok st1 => processModuleEntries ctx rel_pth st1 rest

/-- The `while stack` loop of `collect_dependency_graph`, with explicit fuel:
`none` means the fuel ran out before the stack emptied, `some r` is the
outcome (the finished `Package` or the raised exception) of the Python loop. -/
def collectLoop (ctx : CollectCtx) : Nat → LoopState → Option (Except CollectError Package)
  | 0, _ => none
  | fuel + 1, st =>
    match st.stack with
    | [] =>
        some (.ok { requirements := st.requirements, rel_paths := st.rel_paths,
                    unresolved_modules := st.unresolved_modules })
    | rel_pth :: rest =>
      if pathIsAbsolute rel_pth then some (.error (.absolutePath rel_pth))
      else
        let len_rel_paths_before := st.rel_paths.length
        if rel_pth ∈ st.rel_paths then
          collectLoop ctx fuel { st with stack := rest }
        else
          let res := ctx.resolver rel_pth
          match processBadmodules ctx rel_pth { st with stack := rest } res.badmodules with
          | .error e => some (.error e)
          | .ok st1 =>
            match processModuleEntries ctx rel_pth st1 res.modules with
            | .error e => some (.error e)
            | .ok st2 =>
              if st2.rel_paths.length = len_rel_paths_before + 1 then
                collectLoop ctx fuel st2
              else some (.error (.assertOneStep rel_pth))

/-- The state right after `stack.extend(rel_paths)`: the last seed is popped
first, so the head of the list-stack is the last seed. -/
def initState (rel_paths : List String) : LoopState :=
  { requirements := [], rel_paths := [], unresolved_modules := []
    unresolved_module_set := [], stack := rel_paths.reverse }

/-- Embeds `collect_dependency_graph`: run the traversal loop from the seeds
with the given fuel. -/
def collect_dependency_graph (ctx : CollectCtx) (rel_paths : List String)
    (fuel : Nat) : Option (Except CollectError Package) :=
  collectLoop ctx fuel (initState rel_paths)

/-- The invariant tying `unresolved_module_set` to `package.unresolved_modules`
in `collect_dependency_graph`: the recorded names are duplicate-free and are
exactly the members of the guard set. -/
def UnresolvedInv (st : LoopState) : Prop :=
  (st.unresolved_modules.map UnresolvedModule.name).Nodup ∧
  ∀ n, n ∈ st.unresolved_module_set ↔ n ∈ st.unresolved_modules.map UnresolvedModule.name

/-! ### Concrete fixtures used by witnesses and counterexamples -/

instance {ε α : Type} [DecidableEq ε] [DecidableEq α] : DecidableEq (Except ε α) := fun x y =>
  match x, y with
  | .ok v, .ok w =>
      if h : v = w then .isTrue (by rw [h]) else .isFalse (fun hh => h (Except.ok.inj hh))
  | .error v, .error w =>
      if h : v = w then .isTrue (by rw [h]) else .isFalse (fun hh => h (Except.error.inj hh))
  | .ok _, .error _ => .isFalse (fun hh => Except.noConfusion hh)
  | .error _, .ok _ => .isFalse (fun hh => Except.noConfusion hh)

/-- A filesystem with a single directory `/d` that contains no `*.py` file. -/
def fsEmptyDir : FileSystem :=
  { isFile := fun _ => false, isDir := fun p => p == "/d", globPy := fun _ => [] }

/-- A filesystem with a single file `/f`. -/
def fsSingleFile : FileSystem :=
  { isFile := fun p => p == "/f", isDir := fun _ => false, globPy := fun _ => [] }

/-- A filesystem with a directory `/d` containing `/d/a.py` and `/d/b.py`. -/
def fsDirAndFiles : FileSystem :=
  { isFile := fun p => p == "/d/a.py" || p == "/d/b.py" || p == "/g.py"
    isDir := fun p => p == "/d"
    globPy := fun p => if p == "/d" then ["/d/a.py", "/d/b.py"] else [] }

/-- A resolver reporting, for every loaded file, one unresolved import `zzz`
and the loaded file itself (as `modulefinder` always registers it). -/
def ctxUnresolvedPair : CollectCtx :=
  { resolver := fun p => { badmodules := ["zzz"], modules := [{ name := "self", file := some p }] }
    module_to_requirement := []
    requirements := []
    stdlib := [] }

/-- Two local files importing each other: `a.py` pulls in `b.py` and vice
versa, a genuinely cyclic import graph. -/
def ctxCyclic : CollectCtx :=
  { resolver := fun p =>
      if p == "a.py" then
        { badmodules := [], modules := [⟨"a", some "a.py"⟩, ⟨"b", some "b.py"⟩] }
      else if p == "b.py" then
        { badmodules := [], modules := [⟨"b", some "b.py"⟩, ⟨"a", some "a.py"⟩] }
      else { badmodules := [], modules := [] }
    module_to_requirement := []
    requirements := []
    stdlib := [] }

/-- Parsed requirement records in which `foo` is declared on two lines. -/
def dupFooRecords : List ParsedRequirement :=
  [{ name := some "foo", line := "foo==1.0" },
   { name := some "bar", line := "bar==1" },
   { name := some "foo", line := "foo==2.0" }]

/-- The mapping `parse_requirements` actually produces for `dupFooRecords`. -/
def dupFooResult : List (String × Requirement) :=
  [("foo", { name := "foo", line := "foo==2.0\n" }),
   ("bar", { name := "bar", line := "bar==1\n" })]

/-!
## Theorems
-/

/-! ### Helper lemmas -/

theorem setAdd_of_mem {l : List String} {x : String} (h : x ∈ l) : setAdd l x = l := by
  simp [setAdd, h]

theorem setAdd_of_not_mem {l : List String} {x : String} (h : x ∉ l) :
    setAdd l x = l ++ [x] := by
  simp [setAdd, h]

theorem mem_setAdd {l : List String} {x y : String} :
    y ∈ setAdd l x ↔ y ∈ l ∨ y = x := by
  by_cases h : x ∈ l
  · simp only [setAdd_of_mem h]
    constructor
    · exact fun hy => Or.inl hy
    · rintro (hy | rfl) <;> assumption
  · simp [setAdd_of_not_mem h]

theorem setAdd_self_mem {l : List String} {x : String} : x ∈ setAdd l x :=
  mem_setAdd.mpr (Or.inr rfl)

theorem setAdd_idem {l : List String} {x : String} : setAdd (setAdd l x) x = setAdd l x :=
  setAdd_of_mem setAdd_self_mem

theorem setAdd_length_of_not_mem {l : List String} {x : String} (h : x ∉ l) :
    (setAdd l x).length = l.length + 1 := by
  simp [setAdd_of_not_mem h]

theorem setAdd_nodup {l : List String} {x : String} (h : l.Nodup) : (setAdd l x).Nodup := by
  by_cases hx : x ∈ l
  · simpa [setAdd_of_mem hx] using h
  · rw [setAdd_of_not_mem hx]
    simp [List.nodup_append, h, hx]

theorem setAdd_subset {l s : List String} {x : String} (hl : l ⊆ s) (hx : x ∈ s) :
    setAdd l x ⊆ s := by
  intro y hy
  rcases mem_setAdd.mp hy with h | rfl
  · exact hl h
  · exact hx

theorem pyEndsWith_append (s t : String) : pyEndsWith (s ++ t) t = true := by
  simp only [pyEndsWith, String.data_append, decide_eq_true_eq]
  exact List.suffix_append s.data t.data

theorem odLookup_eq_none {β : Type} (m : List (String × β)) (q : String) :
    odLookup m q = none ↔ q ∉ m.map Prod.fst := by
  induction m with
  | nil => simp [odLookup]
  | cons p rest ih =>
    by_cases h : p.1 = q
    · simp [odLookup, h]
    · simp only [odLookup, if_neg h, List.map_cons, List.mem_cons, ih]
      constructor
      · rintro hq (hh | hh)
        · exact h hh.symm
        · exact hq hh
      · exact fun hq hh => hq (Or.inr hh)

theorem odLookup_append {β : Type} (m m' : List (String × β)) (q : String) :
    odLookup (m ++ m') q =
      match odLookup m q with
      | some v => some v
      | none => odLookup m' q := by
  induction m with
  | nil => simp [odLookup]
  | cons p rest ih =>
    by_cases h : p.1 = q <;> simp [odLookup, h, ih]

theorem odLookup_map_update {β : Type} (m : List (String × β)) (k q : String) (v : β) :
    odLookup (m.map (fun p => if p.1 = k then (k, v) else p)) q =
      if q = k then (odLookup m k).map (fun _ => v) else odLookup m q := by
  induction m with
  | nil => by_cases h : q = k <;> simp [odLookup, h]
  | cons p rest ih =>
    by_cases hp : p.1 = k
    · by_cases hq : q = k
      · subst hq
        simp [odLookup, hp, ih]
      · have hkq : ¬ k = q := fun hh => hq hh.symm
        have hne : ¬ p.1 = q := fun hh => hq (hh.symm.trans hp)
        simp only [List.map_cons, if_pos hp, odLookup, if_neg hkq, ih, if_neg hq, if_neg hne]
    · by_cases hq : q = k
      · subst hq
        simp only [List.map_cons, if_neg hp, odLookup, if_neg hp, ih, if_pos rfl]
      · by_cases hpq : p.1 = q
        · simp [odLookup, hp, hpq, ih, hq]
        · simp [odLookup, hp, hpq, ih, hq]

theorem odLookup_odAssign {β : Type} (m : List (String × β)) (k q : String) (v : β) :
    odLookup (odAssign m k v) q = if q = k then some v else odLookup m q := by
  by_cases hk : k ∈ m.map Prod.fst
  · rw [odAssign, if_pos hk, odLookup_map_update]
    by_cases hq : q = k
    · subst hq
      rcases ho : odLookup m q with _ | w
      · exact absurd ((odLookup_eq_none m q).mp ho) (by simpa using hk)
      · simp [ho]
    · simp [hq]
  · rw [odAssign, if_neg hk, odLookup_append]
    by_cases hq : q = k
    · subst hq
      rw [(odLookup_eq_none m q).mpr (by simpa using hk)]
      simp [odLookup]
    · have hkq : ¬ k = q := fun hh => hq hh.symm
      rcases ho : odLookup m q with _ | w
      · simp [odLookup, hq, hkq]
      · simp [hq]

theorem odAssign_keys {β : Type} (m : List (String × β)) (k : String) (v : β) :
    (odAssign m k v).map Prod.fst =
      if k ∈ m.map Prod.fst then m.map Prod.fst else m.map Prod.fst ++ [k] := by
  by_cases h : k ∈ m.map Prod.fst
  · rw [odAssign, if_pos h, if_pos h, List.map_map]
    refine List.map_congr_left (fun p _ => ?_)
    by_cases hp : p.1 = k <;> simp [Function.comp, hp]
  · rw [odAssign, if_neg h, if_neg h, List.map_append]
    rfl

theorem lastParsed_cons (r : ParsedRequirement) (rest : List ParsedRequirement) (k : String) :
    lastParsed (r :: rest) k =
      if r.name == some k then
        match lastParsed rest k with
        | some v => some v
        | none => some (Requirement.make k r.line)
      else lastParsed rest k := by
  by_cases h : (r.name == some k) = true
  · simp only [lastParsed, List.filter_cons, h, if_true]
    rcases hf : rest.filter (fun r => r.name == some k) with _ | ⟨a, l⟩
    · simp [hf]
    · rw [hf, List.getLast?_cons_cons]
      rcases hl : (a :: l).getLast? with _ | w
      · exact absurd (List.getLast?_eq_none_iff.mp hl) (by simp)
      · simp [hl]
  · have hb : (r.name == some k) = false := by simpa using h
    simp [lastParsed, List.filter_cons, hb]

theorem parseRequirementsLoop_ok (filename : String) :
    ∀ (records : List ParsedRequirement) (acc m : List (String × Requirement)),
    parseRequirementsLoop filename acc records = .ok m →
    (m.map Prod.fst =
      acc.map Prod.fst ++ firstKeys (acc.map Prod.fst) (records.filterMap ParsedRequirement.name)) ∧
    ∀ k, odLookup m k =
      match lastParsed records k with
      | some v => some v
      | none => odLookup acc k := by
  intro records
  induction records with
  | nil =>
    intro acc m hok
    simp only [parseRequirementsLoop] at hok
    cases hok
    constructor
    · simp [firstKeys]
    · intro k
      simp [lastParsed]
  | cons r rest ih =>
    intro acc m hok
    rcases hr : r.name with _ | n
    · rw [parseRequirementsLoop, hr] at hok
      cases hok
    · rw [parseRequirementsLoop, hr] at hok
      obtain ⟨ihk, ihv⟩ := ih (odAssign acc n (Requirement.make n r.line)) m hok
      constructor
      · rw [ihk, odAssign_keys, List.filterMap_cons, hr]
        by_cases hn : n ∈ acc.map Prod.fst
        · rw [if_pos hn]
          simp [firstKeys, hn]
        · rw [if_neg hn]
          simp [firstKeys, hn, List.append_assoc]
      · intro k
        rw [ihv k, lastParsed_cons, odLookup_odAssign, hr]
        by_cases hk : k = n
        · subst hk
          simp only [beq_self_eq_true, if_pos rfl, if_true]
          rcases lastParsed rest k with _ | w <;> rfl
        · have hnk : ¬ n = k := fun hh => hk hh.symm
          have hb : ((some n : Option String) == some k) = false := by simpa using hnk
          simp [hb, if_neg hk]

theorem parse_requirements_first_wins_counterexample :
    parse_requirements dupFooRecords "<unknown>" = .ok dupFooResult ∧
    odLookup dupFooResult "foo" = some { name := "foo", line := "foo==2.0\n" } ∧
    some ({ name := "foo", line := "foo==2.0\n" } : Requirement) ≠
      some ({ name := "foo", line := "foo==1.0\n" } : Requirement) := by
  refine ⟨rfl, rfl, ?_⟩
  decide

/-- C4 amended: for duplicate package names in the requirements text the
returned mapping keeps the key at the position of its first occurrence
(insertion order preserved), but the stored `Requirement` is the one from the
last occurrence — Python dict assignment overwrites the value of an existing
key while keeping its position, so last-seen wins for the value. -/
theorem parse_requirements_keys_first_values_last (records : List ParsedRequirement)
    (filename : String) (m : List (String × Requirement))
    (hok : parse_requirements records filename = .ok m) :
    m.map Prod.fst = firstKeys [] (records.filterMap ParsedRequirement.name) ∧
    ∀ k, odLookup m k = lastParsed records k := by
  obtain ⟨hks, hvs⟩ := parseRequirementsLoop_ok filename records [] m hok
  constructor
  · simpa using hks
  · intro k
    rw [hvs k]
    rcases lastParsed records k with _ | w
    · rfl
    · rfl

/-- C4 witness: the amended statement at a concrete stream declaring `foo`
twice, as produced by the theorem itself. -/
theorem parse_requirements_keys_values_witness :
    dupFooResult.map Prod.fst = firstKeys [] (dupFooRecords.filterMap ParsedRequirement.name) ∧
    odLookup dupFooResult "foo" = lastParsed dupFooRecords "foo" :=
  ⟨(parse_requirements_keys_first_values_last dupFooRecords "<unknown>" dupFooResult rfl).1,
   (parse_requirements_keys_first_values_last dupFooRecords "<unknown>" dupFooResult rfl).2 "foo"⟩

/-! ### C5 -/

/-- C5: the claim says the result of `resolve_initial_paths` is at least as
long as a non-empty input, even when an entry is a directory containing no
matching source files.  The function body violates this (and thereby its own
icontract postcondition): for the single existing, absolute directory `/d`
with no `*.py` files beneath it, the body computes the empty list, which is
shorter than the input. -/
theorem resolve_initial_paths_shorter_than_input :
    resolve_initial_paths fsEmptyDir ["/d"] = .ok [] ∧
    ([] : List String).length < (["/d"] : List String).length := by
  constructor
  · rfl
  · decide

/-! ### C6 -/

/-- C6 counterexample: the claim says each resulting file appears at most once
even when the same file is passed twice directly.  In the source only the
directory branch consults `seen_pths`; a path that is itself a file is appended
unconditionally, so passing the file `/f` twice yields it twice. -/
theorem resolve_initial_paths_duplicate_counterexample :
    resolve_initial_paths fsSingleFile ["/f", "/f"] = .ok ["/f", "/f"] ∧
    ¬ (["/f", "/f"] : List String).Nodup := by
  constructor
  · rfl
  · decide

theorem resolveDirLoop_spec :
    ∀ (gs seen result : List String),
    (∀ x, x ∈ seen ↔ x ∈ result) → result.Nodup →
    (∀ x, x ∈ (resolveDirLoop seen result gs).1 ↔ x ∈ (resolveDirLoop seen result gs).2) ∧
    (resolveDirLoop seen result gs).2.Nodup ∧
    ∃ t, (resolveDirLoop seen result gs).2 = result ++ t ∧ ∀ x ∈ t, x ∈ gs := by
  intro gs
  induction gs with
  | nil =>
    intro seen result hiff hnd
    exact ⟨hiff, hnd, [], by simp [resolveDirLoop]⟩
  | cons g rest ih =>
    intro seen result hiff hnd
    by_cases hg : g ∈ seen
    · rw [resolveDirLoop, if_pos hg]
      obtain ⟨h1, h2, t, ht, hsub⟩ := ih seen result hiff hnd
      exact ⟨h1, h2, t, ht, fun x hx => List.mem_cons_of_mem g (hsub x hx)⟩
    · rw [resolveDirLoop, if_neg hg]
      have hgr : g ∉ result := fun hh => hg ((hiff g).mpr hh)
      have hiff' : ∀ x, x ∈ setAdd seen g ↔ x ∈ result ++ [g] := by
        intro x
        rw [mem_setAdd]
        simp only [List.mem_append, List.mem_singleton]
        exact or_congr_left (hiff x)
      have hnd' : (result ++ [g]).Nodup := by
        simp [List.nodup_append, hnd, hgr]
      obtain ⟨h1, h2, t, ht, hsub⟩ := ih (setAdd seen g) (result ++ [g]) hiff' hnd'
      refine ⟨h1, h2, g :: t, ?_, ?_⟩
      · rw [ht, List.append_assoc]
        rfl
      · intro x hx
        rcases List.mem_cons.mp hx with rfl | hx
        · exact List.mem_cons_self x rest
        · exact List.mem_cons_of_mem g (hsub x hx)

theorem resolveLoop_nodup (fs : FileSystem) :
    ∀ (l seen result r : List String),
    (∀ x, x ∈ seen ↔ x ∈ result) → result.Nodup →
    (l.filter fs.isFile).Nodup →
    (∀ p ∈ l, fs.isFile p = true → p ∉ result) →
    (∀ l₁ p l₂, l = l₁ ++ p :: l₂ → fs.isFile p = true →
      ∀ d ∈ l₁, fs.isDir d = true → p ∉ fs.globPy d) →
    resolveLoop fs seen result l = .ok r → r.Nodup := by
  intro l
  induction l with
  | nil =>
    intro seen result r _ hnd _ _ _ hok
    rw [resolveLoop] at hok
    cases hok
    exact hnd
  | cons pth rest ih =>
    intro seen result r hiff hnd hfilter hfresh hord hok
    have hord' : ∀ l₁ p l₂, rest = l₁ ++ p :: l₂ → fs.isFile p = true →
        ∀ d ∈ l₁, fs.isDir d = true → p ∉ fs.globPy d := by
      intro l₁ p l₂ hsplit hpf d hd hdd
      refine hord (pth :: l₁) p l₂ ?_ hpf d (List.mem_cons_of_mem pth hd) hdd
      rw [hsplit]
      rfl
    by_cases hf : fs.isFile pth = true
    · rw [resolveLoop, if_pos hf] at hok
      have hp : pth ∉ result := hfresh pth (List.mem_cons_self pth rest) hf
      have hfc : (pth :: rest).filter fs.isFile = pth :: rest.filter fs.isFile := by
        simp [List.filter_cons, hf]
      rw [hfc] at hfilter
      have hhd : pth ∉ rest.filter fs.isFile := (List.nodup_cons.mp hfilter).1
      refine ih (setAdd seen pth) (result ++ [pth]) r ?_ ?_ (List.nodup_cons.mp hfilter).2
        ?_ hord' hok
      · intro x
        rw [mem_setAdd]
        simp only [List.mem_append, List.mem_singleton]
        exact or_congr_left (hiff x)
      · simp [List.nodup_append, hnd, hp]
      · intro p hpr hpf
        have hne : p ≠ pth := by
          rintro rfl
          exact hhd (List.mem_filter.mpr ⟨hpr, hpf⟩)
        simp only [List.mem_append, List.mem_singleton]
        rintro (hh | hh)
        · exact hfresh p (List.mem_cons_of_mem pth hpr) hpf hh
        · exact hne hh
    · by_cases hd : fs.isDir pth = true
      · rw [resolveLoop, if_neg hf, if_pos hd] at hok
        obtain ⟨h1, h2, t, ht, hsub⟩ :=
          resolveDirLoop_spec (fs.globPy pth) seen result hiff hnd
        have hfc : (pth :: rest).filter fs.isFile = rest.filter fs.isFile := by
          simp [List.filter_cons, hf]
        rw [hfc] at hfilter
        refine ih _ _ r h1 h2 hfilter ?_ hord' hok
        intro p hpr hpf
        rw [ht]
        simp only [List.mem_append]
        rintro (hh | hh)
        · exact hfresh p (List.mem_cons_of_mem pth hpr) hpf hh
        · obtain ⟨l₁, l₂, hsplit⟩ := List.append_of_mem hpr
          exact hord (pth :: l₁) p l₂ (by rw [hsplit]; rfl) hpf pth
            (List.mem_cons_self pth l₁) hd (hsub p hh)
      · rw [resolveLoop, if_neg hf, if_neg hd] at hok
        cases hok

/-- C6 amended: only files discovered through directory expansion are
deduplicated against previously seen paths (first occurrence wins for them);
a path passed directly as a file is appended unconditionally.  Hence the
result is duplicate-free provided no file is passed directly more than once
and no directly-passed file also appears in the expansion of an input
directory that occurs earlier in the input list (a directory listed after the
file deduplicates against it, so it needs no exclusion). -/
theorem resolve_initial_paths_nodup_when_direct_files_fresh (fs : FileSystem)
    (initial_paths r : List String)
    (hfiles : (initial_paths.filter fs.isFile).Nodup)
    (hglob : ∀ l₁ p l₂, initial_paths = l₁ ++ p :: l₂ → fs.isFile p = true →
      ∀ d ∈ l₁, fs.isDir d = true → p ∉ fs.globPy d)
    (hok : resolve_initial_paths fs initial_paths = .ok r) : r.Nodup := by
  rw [resolve_initial_paths] at hok
  by_cases he : initial_paths = []
  · rw [if_pos he] at hok
    cases hok
    exact List.nodup_nil
  · rw [if_neg he] at hok
    exact resolveLoop_nodup fs initial_paths [] [] r (by simp) List.nodup_nil
      hfiles (by simp) hglob hok

/-- C6 witness: the amended statement at a direct file followed by a directory
whose expansion also contains that file — the directory branch deduplicates
against the already-seen direct file — as produced by the theorem itself.
The direct file has no earlier directory, so the ordered hypothesis holds. -/
theorem resolve_initial_paths_nodup_witness :
    ((["/d/a.py", "/d"].filter fsDirAndFiles.isFile).Nodup) ∧
    (["/d/a.py", "/d/b.py"] : List String).Nodup :=
  ⟨by decide,
   resolve_initial_paths_nodup_when_direct_files_fresh fsDirAndFiles ["/d/a.py", "/d"]
     ["/d/a.py", "/d/b.py"] (by decide)
     (by
       intro l₁ p l₂ hsplit hpf d hd hdd
       rcases l₁ with _ | ⟨a, l₁⟩
       · cases hd
       · rcases l₁ with _ | ⟨b, l₁⟩
         · simp only [List.cons_append, List.nil_append, List.cons.injEq] at hsplit
           obtain ⟨-, hp, -⟩ := hsplit
           subst hp
           exact absurd hpf (by decide)
         · simp only [List.cons_append, List.cons.injEq] at hsplit
           obtain ⟨-, -, hnil⟩ := hsplit
           cases l₁ <;> simp at hnil)
     rfl⟩

/-! ### C7 -/

/-- C7: the claim says the error of `parse_module_to_requirement` reports the
1-based line number in the line-number slot and the field count in the
column-count slot.  The source passes the arguments the other way round: for a
single row with three fields the message reads "got 1 on line 3" (the 1 is the
line number, the 3 the field count), not "got 3 on line 1". -/
theorem parse_module_to_requirement_swapped_line_and_columns :
    parse_module_to_requirement "a\tb\tc" "f.tsv" =
      .error ("Expected two columns, but got 1 on line 3 in f.tsv: "
        ++ pyListRepr ["a", "b", "c"]) ∧
    ("Expected two columns, but got 1 on line 3 in f.tsv: " ++ pyListRepr ["a", "b", "c"]) ≠
      ("Expected two columns, but got 3 on line 1 in f.tsv: " ++ pyListRepr ["a", "b", "c"]) := by
  constructor
  · rfl
  · decide

/-! ### C8 -/

/-- C8 counterexample: the claim says the stored line is the original
significant content plus exactly one final newline.  A line that already ends
with a newline is stored verbatim, so `"a\n\n"` keeps both trailing newlines
instead of being stored as `"a\n"`. -/
theorem requirement_line_double_newline_counterexample :
    (Requirement.make "x" "a\n\n").line = "a\n\n" ∧
    pyEndsWith (Requirement.make "x" "a\n\n").line "\n\n" = true ∧
    ("a\n\n" : String) ≠ "a" ++ "\n" := by
  refine ⟨rfl, rfl, ?_⟩
  decide

/-- C8 amended: the stored line always ends with a newline; when the input
line lacks one, exactly one newline is appended, and a line already ending
with a newline (even several) is stored verbatim. -/
theorem requirement_line_trailing_newline (name line : String) :
    pyEndsWith (Requirement.make name line).line "\n" = true ∧
    ((Requirement.make name line).line = line ∨
      (Requirement.make name line).line = line ++ "\n") ∧
    (pyEndsWith line "\n" = true → (Requirement.make name line).line = line) := by
  by_cases h : pyEndsWith line "\n" = true
  · exact ⟨by simp [Requirement.make, h], Or.inl (by simp [Requirement.make, h]), fun _ => by
      simp [Requirement.make, h]⟩
  · refine ⟨?_, Or.inr (by simp [Requirement.make, h]), fun hc => absurd hc h⟩
    simp only [Requirement.make, h, if_false]
    exact pyEndsWith_append line "\n"

/-- C8 witness: the amended statement at the concrete inputs `"foo"` (one
newline appended) as produced by the theorem itself. -/
theorem requirement_line_trailing_newline_witness :
    pyEndsWith (Requirement.make "x" "foo").line "\n" = true ∧
    ((Requirement.make "x" "foo").line = "foo" ∨
      (Requirement.make "x" "foo").line = "foo" ++ "\n") ∧
    (pyEndsWith "foo" "\n" = true → (Requirement.make "x" "foo").line = "foo") :=
  requirement_line_trailing_newline "x" "foo"

/-! ### C9 -/

/-- C9: the claim says `missing_requirements` never returns duplicate names.
The source guards with `requirement_name not in seen` but never inserts into
`seen`, so two modules mapped to the same absent package yield the package
name twice — violating the function's own `len(result) == len(set(result))`
postcondition. -/
theorem missing_requirements_duplicate :
    missing_requirements [("m1", "pkg"), ("m2", "pkg")] [] = ["pkg", "pkg"] ∧
    ¬ (["pkg", "pkg"] : List String).Nodup := by
  constructor
  · rfl
  · decide

/-! ### C10 -/

/-- C10: the claim (and the function's own postcondition) says an empty table
formats to the empty string.  The body begins with `cols = len(table[0])`,
which raises `IndexError` on the empty table, so the empty string is never
returned. -/
theorem format_table_empty_raises :
    _format_table [] = .error "IndexError: list index out of range" ∧
    _format_table [] ≠ .ok "" := by
  constructor
  · rfl
  · decide

/-! ### Lemmas about the collector loops -/

theorem processBadmodule_ok (ctx : CollectCtx) (rel_pth : String) (st st1 : LoopState)
    (module_name : String) (h : processBadmodule ctx rel_pth st module_name = .ok st1) :
    st1.rel_paths = st.rel_paths ∧ st1.stack = st.stack ∧
    (∃ t, st1.unresolved_modules = st.unresolved_modules ++ t) ∧
    (UnresolvedInv st → UnresolvedInv st1) := by
  rcases hm : odLookup ctx.module_to_requirement module_name with _ | req_name
  · simp only [processBadmodule, hm] at h
    by_cases hstd : module_name ∈ ctx.stdlib
    · rw [if_pos hstd] at h
      cases h
      exact ⟨rfl, rfl, ⟨[], by simp⟩, fun hi => hi⟩
    · rw [if_neg hstd] at h
      by_cases hseen : module_name ∈ st.unresolved_module_set
      · rw [if_pos hseen] at h
        cases h
        exact ⟨rfl, rfl, ⟨[], by simp⟩, fun hi => hi⟩
      · rw [if_neg hseen] at h
        cases h
        refine ⟨rfl, rfl, ⟨[{ name := module_name, imported_from := rel_pth }], rfl⟩, ?_⟩
        rintro ⟨hnd, hiff⟩
        have hnn : module_name ∉ st.unresolved_modules.map UnresolvedModule.name :=
          fun hh => hseen ((hiff module_name).mpr hh)
        constructor
        · simp only [List.map_append, List.map_cons, List.map_nil]
          simp [List.nodup_append, hnd, hnn]
        · intro n
          rw [mem_setAdd]
          simp only [List.map_append, List.map_cons, List.map_nil, List.mem_append,
            List.mem_singleton]
          exact or_congr_left (hiff n)
  · simp only [processBadmodule, hm] at h
    by_cases hin : odLookup st.requirements req_name = none
    · rw [if_pos hin] at h
      rcases hr : odLookup ctx.requirements req_name with _ | req
      · simp only [hr] at h
        cases h
      · simp only [hr] at h
        cases h
        exact ⟨rfl, rfl, ⟨[], by simp⟩, fun hi => hi⟩
    · rw [if_neg hin] at h
      cases h
      exact ⟨rfl, rfl, ⟨[], by simp⟩, fun hi => hi⟩

theorem processBadmodule_error (ctx : CollectCtx) (rel_pth : String) (st : LoopState)
    (module_name : String) (e : CollectError)
    (h : processBadmodule ctx rel_pth st module_name = .error e) :
    ∃ n, e = .keyError n := by
  rcases hm : odLookup ctx.module_to_requirement module_name with _ | req_name
  · simp only [processBadmodule, hm] at h
    by_cases hstd : module_name ∈ ctx.stdlib
    · rw [if_pos hstd] at h
      cases h
    · rw [if_neg hstd] at h
      by_cases hseen : module_name ∈ st.unresolved_module_set
      · rw [if_pos hseen] at h
        cases h
      · rw [if_neg hseen] at h
        cases h
  · simp only [processBadmodule, hm] at h
    by_cases hin : odLookup st.requirements req_name = none
    · rw [if_pos hin] at h
      rcases hr : odLookup ctx.requirements req_name with _ | req
      · simp only [hr] at h
        cases h
        exact ⟨req_name, rfl⟩
      · simp only [hr] at h
        cases h
    · rw [if_neg hin] at h
      cases h

theorem processBadmodules_ok (ctx : CollectCtx) (rel_pth : String) :
    ∀ (ms : List String) (st st1 : LoopState),
    processBadmodules ctx rel_pth st ms = .ok st1 →
    st1.rel_paths = st.rel_paths ∧ st1.stack = st.stack ∧
    (∃ t, st1.unresolved_modules = st.unresolved_modules ++ t) ∧
    (UnresolvedInv st → UnresolvedInv st1) := by
  intro ms
  induction ms with
  | nil =>
    intro st st1 h
    rw [processBadmodules] at h
    cases h
    exact ⟨rfl, rfl, ⟨[], by simp⟩, fun hi => hi⟩
  | cons m rest ih =>
    intro st st1 h
    rcases hm : processBadmodule ctx rel_pth st m with e | stm
    · simp only [processBadmodules, hm] at h
      cases h
    · simp only [processBadmodules, hm] at h
      obtain ⟨h1, h2, ⟨t1, ht1⟩, hinv1⟩ := processBadmodule_ok ctx rel_pth st stm m hm
      obtain ⟨g1, g2, ⟨t2, ht2⟩, hinv2⟩ := ih stm st1 h
      exact ⟨g1.trans h1, g2.trans h2,
        ⟨t1 ++ t2, by rw [ht2, ht1, List.append_assoc]⟩, fun hi => hinv2 (hinv1 hi)⟩

theorem processBadmodules_error (ctx : CollectCtx) (rel_pth : String) :
    ∀ (ms : List String) (st : LoopState) (e : CollectError),
    processBadmodules ctx rel_pth st ms = .error e → ∃ n, e = .keyError n := by
  intro ms
  induction ms with
  | nil =>
    intro st e h
    rw [processBadmodules] at h
    cases h
  | cons m rest ih =>
    intro st e h
    rcases hm : processBadmodule ctx rel_pth st m with e' | stm
    · simp only [processBadmodules, hm] at h
      cases h
      exact processBadmodule_error ctx rel_pth st m e hm
    · simp only [processBadmodules, hm] at h
      exact ih stm e h

theorem processModuleEntries_ok (ctx : CollectCtx) (rel_pth : String) :
    ∀ (L : List ModuleEntry) (st st1 : LoopState),
    processModuleEntries ctx rel_pth st L = .ok st1 →
    st1.requirements = st.requirements ∧
    st1.unresolved_modules = st.unresolved_modules ∧
    st1.unresolved_module_set = st.unresolved_module_set ∧
    st1.stack = (L.filterMap ModuleEntry.file).reverse ++ st.stack ∧
    st1.rel_paths =
      (if L.filterMap ModuleEntry.file = [] then st.rel_paths
       else setAdd st.rel_paths rel_pth) := by
  intro L
  induction L with
  | nil =>
    intro st st1 h
    rw [processModuleEntries] at h
    cases h
    simp
  | cons m rest ih =>
    intro st st1 h
    rcases hm : processModuleEntry ctx rel_pth st m with e | stm
    · simp only [processModuleEntries, hm] at h
      cases h
    · simp only [processModuleEntries, hm] at h
      rcases hf : m.file with _ | f
      · simp only [processModuleEntry, hf] at hm
        by_cases hstd : m.name ∈ ctx.stdlib
        · rw [if_pos hstd] at hm
          cases hm
          obtain ⟨g1, g2, g3, g4, g5⟩ := ih st st1 h
          refine ⟨g1, g2, g3, ?_, ?_⟩
          · rw [g4]
            simp only [List.filterMap_cons, hf]
          · rw [g5]
            simp only [List.filterMap_cons, hf]
        · rw [if_neg hstd] at hm
          cases hm
      · simp only [processModuleEntry, hf] at hm
        cases hm
        obtain ⟨g1, g2, g3, g4, g5⟩ := ih _ st1 h
        refine ⟨g1, g2, g3, ?_, ?_⟩
        · rw [g4]
          simp [List.filterMap_cons, hf, List.append_assoc]
        · rw [g5]
          rcases hrest : rest.filterMap ModuleEntry.file with _ | ⟨a, l⟩
          · simp [List.filterMap_cons, hf, hrest]
          · simp [List.filterMap_cons, hf, hrest, setAdd_idem]

theorem processModuleEntries_error (ctx : CollectCtx) (rel_pth : String) :
    ∀ (L : List ModuleEntry) (st : LoopState) (e : CollectError),
    processModuleEntries ctx rel_pth st L = .error e → ∃ n, e = .filelessModule n := by
  intro L
  induction L with
  | nil =>
    intro st e h
    rw [processModuleEntries] at h
    cases h
  | cons m rest ih =>
    intro st e h
    rcases hm : processModuleEntry ctx rel_pth st m with e' | stm
    · simp only [processModuleEntries, hm] at h
      cases h
      rcases hf : m.file with _ | f
      · simp only [processModuleEntry, hf] at hm
        by_cases hstd : m.name ∈ ctx.stdlib
        · rw [if_pos hstd] at hm
          cases hm
        · rw [if_neg hstd] at hm
          cases hm
          exact ⟨m.name, rfl⟩
      · simp only [processModuleEntry, hf] at hm
        cases hm
    · simp only [processModuleEntries, hm] at h
      exact ih stm e h

/-! ### C1 -/

theorem collectLoop_no_assert (ctx : CollectCtx)
    (hres : ∀ p, ∃ m ∈ (ctx.resolver p).modules, m.file ≠ none) :
    ∀ (fuel : Nat) (st : LoopState) (p : String),
    collectLoop ctx fuel st ≠ some (.error (.assertOneStep p)) := by
  intro fuel
  induction fuel with
  | zero =>
    intro st p h
    simp [collectLoop] at h
  | succ fuel ih =>
    intro st p h
    rcases hstack : st.stack with _ | ⟨rel_pth, rest⟩
    · simp only [collectLoop, hstack] at h
      cases h
    · simp only [collectLoop, hstack] at h
      by_cases habs : pathIsAbsolute rel_pth = true
      · rw [if_pos habs] at h
        simp at h
      · rw [if_neg habs] at h
        by_cases hmem : rel_pth ∈ st.rel_paths
        · rw [if_pos hmem] at h
          exact ih _ p h
        · rw [if_neg hmem] at h
          rcases hb : processBadmodules ctx rel_pth { st with stack := rest }
              (ctx.resolver rel_pth).badmodules with e | st1
          · simp only [hb] at h
            obtain ⟨n, rfl⟩ := processBadmodules_error ctx rel_pth _ _ _ hb
            simp at h
          · simp only [hb] at h
            rcases hmods : processModuleEntries ctx rel_pth st1 (ctx.resolver rel_pth).modules
                with e | st2
            · simp only [hmods] at h
              obtain ⟨n, rfl⟩ := processModuleEntries_error ctx rel_pth _ _ _ hmods
              simp at h
            · simp only [hmods] at h
              have hfiles : (ctx.resolver rel_pth).modules.filterMap ModuleEntry.file ≠ [] := by
                obtain ⟨m, hm, hfile⟩ := hres rel_pth
                rcases hmf : m.file with _ | f
                · exact absurd hmf hfile
                · intro hnil
                  have hmem2 : f ∈ (ctx.resolver rel_pth).modules.filterMap ModuleEntry.file :=
                    List.mem_filterMap.mpr ⟨m, hm, hmf⟩
                  rw [hnil] at hmem2
                  cases hmem2
              obtain ⟨g1, g2, g3, g4, g5⟩ := processModuleEntries_ok ctx rel_pth _ _ _ hmods
              obtain ⟨hrp1, hsk1, _, _⟩ := processBadmodules_ok ctx rel_pth _ _ _ hb
              have hrp1x : st1.rel_paths = st.rel_paths := hrp1
              have hlen : st2.rel_paths.length = st.rel_paths.length + 1 := by
                rw [g5, if_neg hfiles, hrp1x]
                exact setAdd_length_of_not_mem hmem
              rw [if_pos hlen] at h
              exact ih st2 p h

/-- C1: in `collect_dependency_graph`, every iteration that processes a
not-yet-visited relative path adds exactly one new path (the processed one)
to `rel_paths`: as `modulefinder` always registers the loaded file itself
(so every resolver report contains at least one file-backed module), the
`assert len_rel_paths_before + 1 == len(package.rel_paths)` at line 291 never
fails, for any fuel, seed list, registry and module map. -/
theorem collect_dependency_graph_adds_one_path (ctx : CollectCtx)
    (hres : ∀ p, ∃ m ∈ (ctx.resolver p).modules, m.file ≠ none)
    (fuel : Nat) (seeds : List String) (p : String) :
    collect_dependency_graph ctx seeds fuel ≠ some (.error (.assertOneStep p)) :=
  collectLoop_no_assert ctx hres fuel (initState seeds) p

/-- C1 witness: the one-step assertion cannot fire on a concrete
two-seed run, as produced by the theorem itself. -/
theorem collect_adds_one_path_witness :
    collect_dependency_graph ctxUnresolvedPair ["a.py", "b.py"] 10 ≠
      some (.error (.assertOneStep "a.py")) :=
  collect_dependency_graph_adds_one_path ctxUnresolvedPair
    (fun p => ⟨{ name := "self", file := some p }, by simp [ctxUnresolvedPair], by simp⟩)
    10 ["a.py", "b.py"] "a.py"

/-! ### C2 -/

/-- C2: whenever the traversal loop of `collect_dependency_graph` finishes
from a state whose unresolved-module record satisfies its invariant, the
resulting `unresolved_modules` list has pairwise-distinct names, and the
already-recorded entries persist unchanged as a prefix of the result — so a
module name is recorded at most once, attributed to the file being processed
when the traversal first saw the name (the first importer visited). -/
theorem collect_unresolved_nodup_and_stable (ctx : CollectCtx) :
    ∀ (fuel : Nat) (st : LoopState) (pkg : Package),
    UnresolvedInv st →
    collectLoop ctx fuel st = some (.ok pkg) →
    (pkg.unresolved_modules.map UnresolvedModule.name).Nodup ∧
    st.unresolved_modules <+: pkg.unresolved_modules := by
  intro fuel
  induction fuel with
  | zero =>
    intro st pkg hinv h
    simp [collectLoop] at h
  | succ fuel ih =>
    intro st pkg hinv h
    obtain ⟨hnd0, hiff0⟩ := hinv
    rcases hstack : st.stack with _ | ⟨rel_pth, rest⟩
    · simp only [collectLoop, hstack] at h
      cases h
      exact ⟨hnd0, List.prefix_refl _⟩
    · simp only [collectLoop, hstack] at h
      by_cases habs : pathIsAbsolute rel_pth = true
      · rw [if_pos habs] at h
        cases h
      · rw [if_neg habs] at h
        by_cases hmem : rel_pth ∈ st.rel_paths
        · rw [if_pos hmem] at h
          exact ih { st with stack := rest } pkg ⟨hnd0, hiff0⟩ h
        · rw [if_neg hmem] at h
          rcases hb : processBadmodules ctx rel_pth { st with stack := rest }
              (ctx.resolver rel_pth).badmodules with e | st1
          · simp only [hb] at h
            cases h
          · simp only [hb] at h
            rcases hmods : processModuleEntries ctx rel_pth st1 (ctx.resolver rel_pth).modules
                with e | st2
            · simp only [hmods] at h
              cases h
            · simp only [hmods] at h
              by_cases hcond : st2.rel_paths.length = st.rel_paths.length + 1
              · rw [if_pos hcond] at h
                obtain ⟨hrp1, hsk1, ⟨t1, ht1⟩, hinvp⟩ :=
                  processBadmodules_ok ctx rel_pth _ _ _ hb
                obtain ⟨g1, g2, g3, g4, g5⟩ := processModuleEntries_ok ctx rel_pth _ _ _ hmods
                have ht1x : st1.unresolved_modules = st.unresolved_modules ++ t1 := ht1
                have hinv2 : UnresolvedInv st2 := by
                  obtain ⟨a, b⟩ := hinvp ⟨hnd0, hiff0⟩
                  constructor
                  · rw [g2]
                    exact a
                  · intro n
                    rw [g3, g2]
                    exact b n
                obtain ⟨hnd, hpre⟩ := ih st2 pkg hinv2 h
                refine ⟨hnd, ?_⟩
                have hst : st.unresolved_modules <+: st2.unresolved_modules := by
                  rw [g2, ht1x]
                  exact List.prefix_append _ _
                exact hst.trans hpre
              · rw [if_neg hcond] at h
                cases h

/-- C2 witness: with two seed files both importing the unclassifiable module
`zzz`, the finished package records `zzz` once, attributed to `b.py` — the
file visited first (the last seed is popped first) — as produced by the
theorem itself. -/
theorem collect_unresolved_nodup_witness :
    ((([{ name := "zzz", imported_from := "b.py" }] : List UnresolvedModule).map
      UnresolvedModule.name).Nodup) ∧
    (initState ["a.py", "b.py"]).unresolved_modules <+:
      [{ name := "zzz", imported_from := "b.py" }] :=
  collect_unresolved_nodup_and_stable ctxUnresolvedPair 10 (initState ["a.py", "b.py"])
    { requirements := [], rel_paths := ["b.py", "a.py"]
      unresolved_modules := [{ name := "zzz", imported_from := "b.py" }] }
    ⟨List.nodup_nil, fun n => Iff.rfl⟩ (by decide)

/-! ### C3 -/

theorem collectLoop_total (ctx : CollectCtx) (S : List String) (K : Nat)
    (hS : S.Nodup)
    (hclosed : ∀ p ∈ S, ∀ f ∈ (ctx.resolver p).modules.filterMap ModuleEntry.file, f ∈ S)
    (hK : ∀ p ∈ S, ((ctx.resolver p).modules.filterMap ModuleEntry.file).length ≤ K) :
    ∀ (fuel : Nat) (st : LoopState),
    (∀ x ∈ st.stack, x ∈ S) → (∀ x ∈ st.rel_paths, x ∈ S) → st.rel_paths.Nodup →
    (S.length - st.rel_paths.length) * (K + 2) + st.stack.length < fuel →
    collectLoop ctx fuel st ≠ none := by
  intro fuel
  induction fuel with
  | zero =>
    intro st _ _ _ hmeas
    exact absurd hmeas (Nat.not_lt_zero _)
  | succ fuel ih =>
    intro st hstackS hrelS hnd hmeas h
    rcases hstack : st.stack with _ | ⟨rel_pth, rest⟩
    · simp only [collectLoop, hstack] at h
      cases h
    · have hls : st.stack.length = rest.length + 1 := by rw [hstack]; rfl
      rw [hls] at hmeas
      simp only [collectLoop, hstack] at h
      by_cases habs : pathIsAbsolute rel_pth = true
      · rw [if_pos habs] at h
        cases h
      · rw [if_neg habs] at h
        by_cases hmem : rel_pth ∈ st.rel_paths
        · rw [if_pos hmem] at h
          obtain ⟨A, hA⟩ : ∃ A, (S.length - st.rel_paths.length) * (K + 2) = A := ⟨_, rfl⟩
          rw [hA] at hmeas
          refine ih { st with stack := rest } ?_ hrelS hnd ?_ h
          · intro x hx
            refine hstackS x ?_
            rw [hstack]
            exact List.mem_cons_of_mem _ hx
          · show (S.length - st.rel_paths.length) * (K + 2) + rest.length < fuel
            rw [hA]
            omega
        · rw [if_neg hmem] at h
          rcases hb : processBadmodules ctx rel_pth { st with stack := rest }
              (ctx.resolver rel_pth).badmodules with e | st1
          · simp only [hb] at h
            cases h
          · simp only [hb] at h
            rcases hmods : processModuleEntries ctx rel_pth st1 (ctx.resolver rel_pth).modules
                with e | st2
            · simp only [hmods] at h
              cases h
            · simp only [hmods] at h
              by_cases hcond : st2.rel_paths.length = st.rel_paths.length + 1
              · rw [if_pos hcond] at h
                obtain ⟨hrp1, hsk1, _, _⟩ := processBadmodules_ok ctx rel_pth _ _ _ hb
                obtain ⟨g1, g2, g3, g4, g5⟩ := processModuleEntries_ok ctx rel_pth _ _ _ hmods
                have hrp1x : st1.rel_paths = st.rel_paths := hrp1
                have hsk1x : st1.stack = rest := hsk1
                have hrelpS : rel_pth ∈ S := by
                  refine hstackS rel_pth ?_
                  rw [hstack]
                  exact List.mem_cons_self _ _
                by_cases hfe : (ctx.resolver rel_pth).modules.filterMap ModuleEntry.file = []
                · exfalso
                  rw [g5, if_pos hfe, hrp1x] at hcond
                  omega
                · rw [if_neg hfe] at g5
                  have hrel2eq : st2.rel_paths = setAdd st.rel_paths rel_pth := by
                    rw [g5, hrp1x]
                  have hrelS2 : ∀ x ∈ st2.rel_paths, x ∈ S := by
                    rw [hrel2eq]
                    intro x hx
                    rcases mem_setAdd.mp hx with hx | rfl
                    · exact hrelS x hx
                    · exact hrelpS
                  have hnd2 : st2.rel_paths.Nodup := by
                    rw [hrel2eq]
                    exact setAdd_nodup hnd
                  have hlen2 : st2.rel_paths.length = st.rel_paths.length + 1 := by
                    rw [hrel2eq]
                    exact setAdd_length_of_not_mem hmem
                  have hcard : st.rel_paths.length + 1 ≤ S.length := by
                    have hle := (List.subperm_of_subset hnd2 hrelS2).length_le
                    rw [hlen2] at hle
                    exact hle
                  have hstk2 : st2.stack.length ≤ K + rest.length := by
                    rw [g4, hsk1x]
                    simp only [List.length_append, List.length_reverse]
                    have hKl := hK rel_pth hrelpS
                    omega
                  have hstackS2 : ∀ x ∈ st2.stack, x ∈ S := by
                    rw [g4, hsk1x]
                    intro x hx
                    rcases List.mem_append.mp hx with hx | hx
                    · exact hclosed rel_pth hrelpS x (List.mem_reverse.mp hx)
                    · refine hstackS x ?_
                      rw [hstack]
                      exact List.mem_cons_of_mem _ hx
                  have hsubS : S.length - st.rel_paths.length =
                      (S.length - (st.rel_paths.length + 1)) + 1 := by omega
                  rw [hsubS, add_mul, one_mul] at hmeas
                  obtain ⟨A, hA⟩ :
                      ∃ A, (S.length - (st.rel_paths.length + 1)) * (K + 2) = A := ⟨_, rfl⟩
                  rw [hA] at hmeas
                  refine ih st2 hstackS2 hrelS2 hnd2 ?_ h
                  rw [hlen2, hA]
                  omega
              · rw [if_neg hcond] at h
                cases h

/-- C3: the traversal of `collect_dependency_graph` terminates on every
finite codebase, including cyclic import graphs: for any finite,
duplicate-free set `S` of relative paths that contains the seeds and is
closed under the files the resolver discovers (with per-file fan-out at most
`K`), the loop finishes within an explicit fuel bound — already-visited
paths popped from the stack are discarded, so each genuine iteration
consumes one fresh element of `S`. -/
theorem collect_dependency_graph_terminates (ctx : CollectCtx) (seeds : List String)
    (S : List String) (K : Nat) (hS : S.Nodup)
    (hseed : ∀ p ∈ seeds, p ∈ S)
    (hclosed : ∀ p ∈ S, ∀ f ∈ (ctx.resolver p).modules.filterMap ModuleEntry.file, f ∈ S)
    (hK : ∀ p ∈ S, ((ctx.resolver p).modules.filterMap ModuleEntry.file).length ≤ K) :
    collect_dependency_graph ctx seeds (S.length * (K + 2) + seeds.length + 1) ≠ none := by
  refine collectLoop_total ctx S K hS hclosed hK _ (initState seeds) ?_ ?_ ?_ ?_
  · intro x hx
    exact hseed x (List.mem_reverse.mp hx)
  · intro x hx
    cases hx
  · exact List.nodup_nil
  · show (S.length - 0) * (K + 2) + seeds.reverse.length <
      S.length * (K + 2) + seeds.length + 1
    rw [Nat.sub_zero, List.length_reverse]
    exact Nat.lt_succ_self _

/-- C3 witness: termination on a genuinely cyclic import graph (`a.py` and
`b.py` import each other), as produced by the theorem itself. -/
theorem collect_terminates_witness :
    collect_dependency_graph ctxCyclic ["a.py"] (2 * (2 + 2) + 1 + 1) ≠ none :=
  collect_dependency_graph_terminates ctxCyclic ["a.py"] ["a.py", "b.py"] 2 (by decide)
    (by decide) (by decide) (by decide)

end Packagery
